import Mathlib

/-!
Shallow embedding of `src/kfifo.c` (a circular byte buffer with 32-bit
wrapping cursors) and verification of its specified properties.

Machine arithmetic: `uint32_t` values are `Nat` kept below `U32 = 2^32`;
every operation the C code performs on a `uint32_t` is followed by `% U32`.
The byte pool is a total function `Nat → Nat` (physical offset to byte);
`memcpy` into the pool is modelled by `memcpy`, and `memcpy` out of the
pool by `memread`.
-/

namespace KFIFO

def U32 : Nat := 4294967296

/-- The `KFIFO_Handle_t` record from `kfifo.h`: write cursor `inC`
(field `in` in C), read cursor `out`, `mask`, and the byte pool. -/
structure KFIFO_Handle where
  inC : Nat
  out : Nat
  mask : Nat
  pool : Nat → Nat

/-- `RB_SIZE`: `mask + 1` in `uint32_t` arithmetic. -/
def RB_SIZE (rb : KFIFO_Handle) : Nat := (rb.mask + 1) % U32

/-- `RB_USED`: `(in - out) & mask`, with `in - out` the wrapping 32-bit
difference. -/
def RB_USED (rb : KFIFO_Handle) : Nat :=
  ((rb.inC + (U32 - rb.out)) % U32) &&& rb.mask

/-- `RB_UNUSED`: `RB_SIZE - RB_USED` in `uint32_t` arithmetic. -/
def RB_UNUSED (rb : KFIFO_Handle) : Nat :=
  (RB_SIZE rb + (U32 - RB_USED rb)) % U32

/-- `RB_OFFSET_IN`: `in & mask`. -/
def RB_OFFSET_IN (rb : KFIFO_Handle) : Nat := rb.inC &&& rb.mask

/-- `RB_OFFSET_OUT`: `out & mask`. -/
def RB_OFFSET_OUT (rb : KFIFO_Handle) : Nat := rb.out &&& rb.mask

/-- `RB_REMAIN_IN`: `RB_SIZE - RB_OFFSET_IN` in `uint32_t` arithmetic. -/
def RB_REMAIN_IN (rb : KFIFO_Handle) : Nat :=
  (RB_SIZE rb + (U32 - RB_OFFSET_IN rb)) % U32

/-- `RB_REMAIN_OUT`: `RB_SIZE - RB_OFFSET_OUT` in `uint32_t` arithmetic. -/
def RB_REMAIN_OUT (rb : KFIFO_Handle) : Nat :=
  (RB_SIZE rb + (U32 - RB_OFFSET_OUT rb)) % U32

/-- `KFIFO_IsFull`: `RB_UNUSED(rb) == 0`. -/
def KFIFO_IsFull (rb : KFIFO_Handle) : Bool := RB_UNUSED rb == 0

/-- `KFIFO_IsEmpty`: `RB_USED(rb) == 0`. -/
def KFIFO_IsEmpty (rb : KFIFO_Handle) : Bool := RB_USED rb == 0

/-- `KFIFO_Init`. The C pool pointer is modelled by `Option (Nat → Nat)`
(`none` = NULL); returning `none` models `return false` (no fields set),
`some rb` models `return true` with the fields the code assigns.
`size - 1` is the wrapping 32-bit decrement. -/
def KFIFO_Init (pool : Option (Nat → Nat)) (size : Nat) :
    Option KFIFO_Handle :=
  match pool with
  | none => none
  | some p =>
    if size &&& ((size + (U32 - 1)) % U32) ≠ 0 then none
    else some { inC := 0, out := 0, mask := (size + (U32 - 1)) % U32, pool := p }

/-- `memcpy(dst + off, src, src.length)` into the pool: byte `src[j]` goes
to physical offset `off + j`. -/
def memcpy (pool : Nat → Nat) (off : Nat) (src : List Nat) : Nat → Nat :=
  match src with
  | [] => pool
  | b :: rest => memcpy (fun i => if i = off then b else pool i) (off + 1) rest

/-- `memcpy(dst, pool + off, n)` out of the pool: the `n` bytes at
physical offsets `off, off+1, …`. -/
def memread (pool : Nat → Nat) (off n : Nat) : List Nat :=
  (List.range n).map (fun j => pool (off + j))

/-- `KFIFO_WriteByte`: fail if full, else store at `RB_OFFSET_IN` and
increment `in` (wrapping). -/
def KFIFO_WriteByte (rb : KFIFO_Handle) (byte : Nat) : Bool × KFIFO_Handle :=
  if KFIFO_IsFull rb then (false, rb)
  else
    (true,
     { rb with
       pool := fun i => if i = RB_OFFSET_IN rb then byte else rb.pool i,
       inC := (rb.inC + 1) % U32 })

/-- `KFIFO_ReadByte`: fail if empty, else return the byte at
`RB_OFFSET_OUT` and increment `out` (wrapping). The C out-parameter is
modelled by `Option Nat`. -/
def KFIFO_ReadByte (rb : KFIFO_Handle) : Option Nat × KFIFO_Handle :=
  if KFIFO_IsEmpty rb then (none, rb)
  else
    (some (rb.pool (RB_OFFSET_OUT rb)),
     { rb with out := (rb.out + 1) % U32 })

/-- `KFIFO_Write_Buffer`: all-or-nothing bulk write, split in two
`memcpy`s when the data would cross the physical end of the pool.
`buffer` holds the bytes at the C `buffer` pointer; `size` is the
separate byte-count argument. -/
def KFIFO_Write_Buffer (rb : KFIFO_Handle) (buffer : List Nat)
    (size : Nat) : Bool × KFIFO_Handle :=
  if RB_UNUSED rb < size then (false, rb)
  else
    (true,
     { rb with
       pool :=
         if RB_REMAIN_IN rb < size then
           memcpy
             (memcpy rb.pool (RB_OFFSET_IN rb) (buffer.take (RB_REMAIN_IN rb)))
             0 ((buffer.drop (RB_REMAIN_IN rb)).take (size - RB_REMAIN_IN rb))
         else
           memcpy rb.pool (RB_OFFSET_IN rb) (buffer.take size),
       inC := (rb.inC + size) % U32 })

/-- `KFIFO_Write_Buffer_Truncated`: clamp `size` down to the free space,
return `0` if the clamped size is zero, else the same split copy as
`KFIFO_Write_Buffer`; returns the byte count actually written. -/
def KFIFO_Write_Buffer_Truncated (rb : KFIFO_Handle) (buffer : List Nat)
    (size0 : Nat) : Nat × KFIFO_Handle :=
  let space := RB_UNUSED rb
  let size := if size0 > space then space else size0
  if size = 0 then (0, rb)
  else
    (size,
     { rb with
       pool :=
         if RB_REMAIN_IN rb < size then
           memcpy
             (memcpy rb.pool (RB_OFFSET_IN rb) (buffer.take (RB_REMAIN_IN rb)))
             0 ((buffer.drop (RB_REMAIN_IN rb)).take (size - RB_REMAIN_IN rb))
         else
           memcpy rb.pool (RB_OFFSET_IN rb) (buffer.take size),
       inC := (rb.inC + size) % U32 })

/-- `KFIFO_Read_Buffer`: all-or-nothing bulk read, split in two copies at
the physical end of the pool; the C destination buffer is modelled by the
returned `Option (List Nat)`. -/
def KFIFO_Read_Buffer (rb : KFIFO_Handle) (size : Nat) :
    Option (List Nat) × KFIFO_Handle :=
  if RB_USED rb < size then (none, rb)
  else
    (some
       (if RB_REMAIN_OUT rb < size then
          memread rb.pool (RB_OFFSET_OUT rb) (RB_REMAIN_OUT rb) ++
            memread rb.pool 0 (size - RB_REMAIN_OUT rb)
        else
          memread rb.pool (RB_OFFSET_OUT rb) size),
     { rb with out := (rb.out + size) % U32 })

/-- `KFIFO_Linear_Write_Rem`: `RB_REMAIN_IN`. -/
def KFIFO_Linear_Write_Rem (rb : KFIFO_Handle) : Nat := RB_REMAIN_IN rb

/-- `KFIFO_Linear_Write_Finish`: `in += size` (wrapping), no check. -/
def KFIFO_Linear_Write_Finish (rb : KFIFO_Handle) (size : Nat) :
    KFIFO_Handle :=
  { rb with inC := (rb.inC + size) % U32 }

/-- `KFIFO_Linear_Read_Rem`: `RB_REMAIN_OUT`. -/
def KFIFO_Linear_Read_Rem (rb : KFIFO_Handle) : Nat := RB_REMAIN_OUT rb

/-- `KFIFO_Linear_Read_Finish`: `out += size` (wrapping), no check. -/
def KFIFO_Linear_Read_Finish (rb : KFIFO_Handle) (size : Nat) :
    KFIFO_Handle :=
  { rb with out := (rb.out + size) % U32 }

/-- `KFIFO_GetLen`: `RB_USED`. -/
def KFIFO_GetLen (rb : KFIFO_Handle) : Nat := RB_USED rb

/-- `KFIFO_Peek`: like `KFIFO_ReadByte` but does not advance `out`. -/
def KFIFO_Peek (rb : KFIFO_Handle) : Option Nat :=
  if KFIFO_IsEmpty rb then none else some (rb.pool (RB_OFFSET_OUT rb))

/-- `KFIFO_Reset`: both cursors to zero, nothing else touched. -/
def KFIFO_Reset (rb : KFIFO_Handle) : KFIFO_Handle :=
  { rb with inC := 0, out := 0 }

/-- Well-formed handle: cursors are genuine `uint32_t` values and the
mask came from a successful power-of-two `KFIFO_Init` (`size = 2^k` with
`2^k` representable in `uint32_t`, so `k ≤ 31`). -/
def WF (rb : KFIFO_Handle) : Prop :=
  rb.inC < U32 ∧ rb.out < U32 ∧ ∃ k, k ≤ 31 ∧ rb.mask + 1 = 2 ^ k

/-- The all-zero pool, used for concrete evaluations. -/
def zpool : Nat → Nat := fun _ => 0

/-! Concrete states used by the evaluation theorems below. -/

/-- Capacity-4 buffer freshly produced by a successful `KFIFO_Init`. -/
def rbC4 : KFIFO_Handle := { inC := 0, out := 0, mask := 3, pool := zpool }

/-- `rbC4` after `KFIFO_Write_Buffer` of the four bytes `[1,2,3,4]`. -/
def rbC4w : KFIFO_Handle := (KFIFO_Write_Buffer rbC4 [1, 2, 3, 4] 4).2

/-- `rbC4w` after a further `KFIFO_WriteByte 5`. -/
def rbC4w5 : KFIFO_Handle := (KFIFO_WriteByte rbC4w 5).2

/-- `rbC4` after one, two, three, four `KFIFO_WriteByte` calls. -/
def rbW1 : KFIFO_Handle := (KFIFO_WriteByte rbC4 1).2

def rbW2 : KFIFO_Handle := (KFIFO_WriteByte rbW1 2).2

def rbW3 : KFIFO_Handle := (KFIFO_WriteByte rbW2 3).2

def rbW4 : KFIFO_Handle := (KFIFO_WriteByte rbW3 4).2

/-- Capacity-4 buffer whose 32-bit cursors sit 4 below the overflow
boundary `2^32`. -/
def rbTop : KFIFO_Handle :=
  { inC := U32 - 4, out := U32 - 4, mask := 3, pool := zpool }

/-- `rbTop` after `KFIFO_Write_Buffer` of the four bytes `[1,2,3,4]`. -/
def rbTopW : KFIFO_Handle := (KFIFO_Write_Buffer rbTop [1, 2, 3, 4] 4).2

end KFIFO

namespace KFIFO

/-- C1: counter-evaluation. On the capacity-4 buffer `rbC4` the sequence
`KFIFO_Write_Buffer [1,2,3,4]` (4 bytes, free space 4), `KFIFO_WriteByte 5`
(free space still reported 4, so within free space), `KFIFO_ReadByte`
(used count 1, so within the used count) delivers the byte `5` as the
first byte read, not the first submitted byte `1`: FIFO order is violated
because `RB_USED` masks the cursor difference, so the fifth byte
overwrites the oldest one. -/
theorem fifo_order_violation_capacity4 :
    KFIFO_Init (some zpool) 4 = some rbC4 ∧
    RB_UNUSED rbC4 = 4 ∧
    (KFIFO_Write_Buffer rbC4 [1, 2, 3, 4] 4).1 = true ∧
    RB_UNUSED rbC4w = 4 ∧
    (KFIFO_WriteByte rbC4w 5).1 = true ∧
    RB_USED rbC4w5 = 1 ∧
    (KFIFO_ReadByte rbC4w5).1 = some 5 :=
  ⟨rfl, rfl, rfl, rfl, rfl, rfl, rfl⟩

/-- C2: counter-evaluation. On the capacity-4 buffer, four
`KFIFO_WriteByte` calls succeed, but `KFIFO_IsFull` is then still
`false` and the fifth `KFIFO_WriteByte` also succeeds, contrary to the
claim that the fifth call fails with `is_full()` true. -/
theorem fifth_writeByte_succeeds_capacity4 :
    (KFIFO_WriteByte rbC4 1).1 = true ∧
    (KFIFO_WriteByte rbW1 2).1 = true ∧
    (KFIFO_WriteByte rbW2 3).1 = true ∧
    (KFIFO_WriteByte rbW3 4).1 = true ∧
    KFIFO_IsFull rbW4 = false ∧
    (KFIFO_WriteByte rbW4 5).1 = true :=
  ⟨rfl, rfl, rfl, rfl, rfl, rfl⟩

/-- C3: counter-evaluation. `KFIFO_Init` with a non-null pool and
`size = 0` does not return `false`: `0 & (0 - 1) = 0` passes the
power-of-two test, so it returns `true` and sets
`mask = 0 - 1 = 2^32 - 1`. -/
theorem init_accepts_size_zero :
    KFIFO_Init (some zpool) 0 =
      some { inC := 0, out := 0, mask := 4294967295, pool := zpool } :=
  rfl

/-- C5: counter-evaluation. On the empty capacity-4 buffer,
`KFIFO_Linear_Write_Rem` reports 4, but after
`KFIFO_Linear_Write_Finish 4` the used count `RB_USED` is still 0 — it
did not increase by 4, because `RB_USED` masks the cursor difference. -/
theorem linear_write_finish_used_not_increased :
    KFIFO_Linear_Write_Rem rbC4 = 4 ∧
    RB_USED rbC4 = 0 ∧
    RB_USED (KFIFO_Linear_Write_Finish rbC4 4) = 0 :=
  ⟨rfl, rfl, rfl⟩

/-- C8: counter-evaluation. Starting with both 32-bit cursors at
`2^32 - 4` on a capacity-4 buffer, writing 4 = capacity bytes succeeds
and the write cursor wraps to 0, but the subsequent read of 4 bytes
fails (`RB_USED` is 0, not 4), returning nothing instead of the written
bytes: the round trip loses the data even though the modulo-`2^32`
cursor arithmetic itself wrapped as intended. -/
theorem wraparound_write_then_read_fails :
    RB_UNUSED rbTop = 4 ∧
    (KFIFO_Write_Buffer rbTop [1, 2, 3, 4] 4).1 = true ∧
    rbTopW.inC = 0 ∧
    RB_USED rbTopW = 0 ∧
    (KFIFO_Read_Buffer rbTopW 4).1 = none ∧
    (KFIFO_Read_Buffer rbTopW 4).2 = rbTopW :=
  ⟨rfl, rfl, rfl, rfl, rfl, rfl⟩

/-- C7: when `KFIFO_Write_Buffer` is called with `size` exceeding the
free space `RB_UNUSED`, or `KFIFO_Read_Buffer` with `size` exceeding the
used count `RB_USED`, the call returns failure and the handle — cursors
and pool alike — is returned completely unchanged. -/
theorem write_read_buffer_fail_no_mutation (rb : KFIFO_Handle)
    (buffer : List Nat) (size : Nat) :
    (RB_UNUSED rb < size → KFIFO_Write_Buffer rb buffer size = (false, rb)) ∧
    (RB_USED rb < size → KFIFO_Read_Buffer rb size = (none, rb)) := by
  constructor
  · intro h
    simp [KFIFO_Write_Buffer, h]
  · intro h
    simp [KFIFO_Read_Buffer, h]

/-- C7 witness: the general theorem applied to the empty capacity-4
buffer with `size = 5`. -/
theorem write_read_buffer_fail_no_mutation_witness :
    RB_UNUSED rbC4 < 5 ∧ RB_USED rbC4 < 5 ∧
    KFIFO_Write_Buffer rbC4 [9] 5 = (false, rbC4) ∧
    KFIFO_Read_Buffer rbC4 5 = (none, rbC4) :=
  ⟨by decide, by decide,
   (write_read_buffer_fail_no_mutation rbC4 [9] 5).1 (by decide),
   (write_read_buffer_fail_no_mutation rbC4 [9] 5).2 (by decide)⟩

/-! Helper lemmas: 32-bit wrapping subtraction, mask arithmetic, and the
pointwise behaviour of `memcpy`. -/

/-- Wrapping subtraction `a - b` on `N`-bit-style arithmetic, in the
regime where the true difference is representable. -/
theorem wrap_sub (N a b : Nat) (hb : b ≤ a) (ha : a < N) :
    (a + (N - b)) % N = a - b := by
  have h1 : a + (N - b) = N + (a - b) := by omega
  rw [h1, Nat.add_mod_left, Nat.mod_eq_of_lt (by omega)]

/-- AND with a power-of-two mask is reduction modulo the power. -/
theorem land_mask (x mask k : Nat) (hm : mask + 1 = 2 ^ k) :
    x &&& mask = x % 2 ^ k := by
  have h : mask = 2 ^ k - 1 := by omega
  rw [h, Nat.and_pow_two_sub_one_eq_mod]

theorem two_pow_lt_U32 {k : Nat} (hk : k ≤ 31) : 2 ^ k < U32 := by
  have h1 : (2 : Nat) ^ k ≤ 2 ^ 31 := Nat.pow_le_pow_right (by norm_num) hk
  have h2 : (2 : Nat) ^ 31 < U32 := by norm_num [U32]
  omega

theorem RB_SIZE_eq (rb : KFIFO_Handle) {k : Nat} (hk : k ≤ 31)
    (hm : rb.mask + 1 = 2 ^ k) : RB_SIZE rb = 2 ^ k := by
  rw [RB_SIZE, hm, Nat.mod_eq_of_lt (two_pow_lt_U32 hk)]

theorem RB_USED_le_mask (rb : KFIFO_Handle) : RB_USED rb ≤ rb.mask :=
  Nat.and_le_right

theorem RB_UNUSED_eq (rb : KFIFO_Handle) {k : Nat} (hk : k ≤ 31)
    (hm : rb.mask + 1 = 2 ^ k) : RB_UNUSED rb = 2 ^ k - RB_USED rb := by
  have hle : RB_USED rb ≤ 2 ^ k := by
    have := RB_USED_le_mask rb; omega
  rw [RB_UNUSED, RB_SIZE_eq rb hk hm, wrap_sub U32 _ _ hle (two_pow_lt_U32 hk)]

theorem RB_OFFSET_IN_eq (rb : KFIFO_Handle) {k : Nat}
    (hm : rb.mask + 1 = 2 ^ k) : RB_OFFSET_IN rb = rb.inC % 2 ^ k :=
  land_mask _ _ _ hm

theorem RB_REMAIN_IN_eq (rb : KFIFO_Handle) {k : Nat} (hk : k ≤ 31)
    (hm : rb.mask + 1 = 2 ^ k) :
    RB_REMAIN_IN rb = 2 ^ k - rb.inC % 2 ^ k := by
  have hlt : rb.inC % 2 ^ k < 2 ^ k := Nat.mod_lt _ (Nat.pos_pow_of_pos _ (by norm_num))
  rw [RB_REMAIN_IN, RB_SIZE_eq rb hk hm, RB_OFFSET_IN_eq rb hm,
    wrap_sub U32 _ _ (by omega) (two_pow_lt_U32 hk)]

/-- `memcpy` leaves offsets outside `[off, off + src.length)` alone. -/
theorem memcpy_out (src : List Nat) (pool : Nat → Nat) (off i : Nat)
    (h : i < off ∨ off + src.length ≤ i) : memcpy pool off src i = pool i := by
  induction src generalizing pool off with
  | nil => rfl
  | cons b rest ih =>
    have hne : i ≠ off := by simp at h; omega
    have h' : i < off + 1 ∨ off + 1 + rest.length ≤ i := by simp at h; omega
    rw [memcpy, ih _ _ h']
    simp [hne]

/-- `memcpy` writes source byte `j` to offset `off + j`. -/
theorem memcpy_in (src : List Nat) (pool : Nat → Nat) (off j : Nat)
    (h : j < src.length) : memcpy pool off src (off + j) = src.getD j 0 := by
  induction src generalizing pool off j with
  | nil => simp at h
  | cons b rest ih =>
    cases j with
    | zero =>
      rw [memcpy, memcpy_out _ _ _ _ (by omega)]
      simp
    | succ j =>
      have hidx : off + (j + 1) = (off + 1) + j := by omega
      rw [memcpy, hidx, ih _ _ _ (by simpa using h)]
      simp

theorem getD_take (l : List Nat) (n j : Nat) (h : j < n) :
    (l.take n).getD j 0 = l.getD j 0 := by
  simp [List.getD_eq_getElem?_getD, List.getElem?_take_of_lt h]

theorem getD_drop (l : List Nat) (m j : Nat) :
    (l.drop m).getD j 0 = l.getD (m + j) 0 := by
  simp [List.getD_eq_getElem?_getD, List.getElem?_drop]

/-- C10: in every well-formed state — any cursor values whatsoever —
`KFIFO_GetLen` returns `(in - out) & mask`, hence at most
`mask = capacity - 1`; consequently `RB_UNUSED` is never `0` and
`KFIFO_IsFull` never returns `true`: full detection is unreachable
because `RB_USED` masks the cursor difference. -/
theorem getLen_le_mask_isFull_never (rb : KFIFO_Handle) (hwf : WF rb) :
    KFIFO_GetLen rb = ((rb.inC + (U32 - rb.out)) % U32) &&& rb.mask ∧
    KFIFO_GetLen rb ≤ rb.mask ∧
    RB_UNUSED rb ≠ 0 ∧
    KFIFO_IsFull rb = false := by
  obtain ⟨hin, hout, k, hk, hm⟩ := hwf
  have hle : RB_USED rb ≤ rb.mask := RB_USED_le_mask rb
  have hun : RB_UNUSED rb = 2 ^ k - RB_USED rb := RB_UNUSED_eq rb hk hm
  have hne : RB_UNUSED rb ≠ 0 := by omega
  refine ⟨rfl, hle, hne, ?_⟩
  simp [KFIFO_IsFull, hne]

/-- C10 witness: the theorem at the capacity-4 state with `in = 6`,
`out = 1`. -/
theorem getLen_le_mask_isFull_never_witness :
    WF { inC := 6, out := 1, mask := 3, pool := zpool } ∧
    KFIFO_GetLen { inC := 6, out := 1, mask := 3, pool := zpool } =
        ((6 + (U32 - 1)) % U32) &&& 3 ∧
    KFIFO_GetLen { inC := 6, out := 1, mask := 3, pool := zpool } ≤ 3 ∧
    RB_UNUSED { inC := 6, out := 1, mask := 3, pool := zpool } ≠ 0 ∧
    KFIFO_IsFull { inC := 6, out := 1, mask := 3, pool := zpool } = false := by
  have hwf : WF { inC := 6, out := 1, mask := 3, pool := zpool } :=
    ⟨by norm_num [U32], by norm_num [U32], 2, by norm_num, by norm_num⟩
  exact ⟨hwf, getLen_le_mask_isFull_never _ hwf⟩

/-- A capacity-4 state with `in = 3`, `out = 1`, used for witnesses; a
bulk write of 2 bytes from here wraps around the physical end. -/
def rbMid : KFIFO_Handle := { inC := 3, out := 1, mask := 3, pool := zpool }

/-- C4: whenever the free space `RB_UNUSED` is at least `size` (and the
source holds at least `size` bytes), `KFIFO_Write_Buffer` succeeds,
advances the write cursor by exactly `size` (wrapping at `2^32`), leaves
`out` and `mask` alone, stores source byte `j` at physical offset
`(in + j) & mask` for every `j < size`, and touches no other offset of
the pool. The definition performs the copy as a single `memcpy` when
`RB_REMAIN_IN` is at least `size` and as exactly two — to the physical
end, then from offset 0 — otherwise, exactly as the C code does. -/
theorem write_buffer_stores_at_masked_offsets (rb : KFIFO_Handle)
    (buffer : List Nat) (size : Nat) (hwf : WF rb)
    (hlen : size ≤ buffer.length) (hfree : size ≤ RB_UNUSED rb) :
    (KFIFO_Write_Buffer rb buffer size).1 = true ∧
    (KFIFO_Write_Buffer rb buffer size).2.inC = (rb.inC + size) % U32 ∧
    (KFIFO_Write_Buffer rb buffer size).2.out = rb.out ∧
    (KFIFO_Write_Buffer rb buffer size).2.mask = rb.mask ∧
    (∀ j, j < size →
      (KFIFO_Write_Buffer rb buffer size).2.pool ((rb.inC + j) &&& rb.mask)
        = buffer.getD j 0) ∧
    (∀ i, i < RB_SIZE rb →
      (∀ j, j < size → i ≠ (rb.inC + j) &&& rb.mask) →
      (KFIFO_Write_Buffer rb buffer size).2.pool i = rb.pool i) := by
  obtain ⟨hin, hout, k, hk, hm⟩ := hwf
  have hCpos : 0 < 2 ^ k := Nat.pos_pow_of_pos _ (by norm_num)
  have hoff_lt : rb.inC % 2 ^ k < 2 ^ k := Nat.mod_lt _ hCpos
  have hused_le : RB_USED rb ≤ rb.mask := RB_USED_le_mask rb
  have hun : RB_UNUSED rb = 2 ^ k - RB_USED rb := RB_UNUSED_eq rb hk hm
  have hsize_le : size ≤ 2 ^ k := by omega
  have hrem : RB_REMAIN_IN rb = 2 ^ k - rb.inC % 2 ^ k := RB_REMAIN_IN_eq rb hk hm
  have hoffeq : RB_OFFSET_IN rb = rb.inC % 2 ^ k := RB_OFFSET_IN_eq rb hm
  have hSeq : RB_SIZE rb = 2 ^ k := RB_SIZE_eq rb hk hm
  have hnotlt : ¬ RB_UNUSED rb < size := by omega
  have hidx : ∀ j, j < size →
      (rb.inC + j) &&& rb.mask = (rb.inC % 2 ^ k + j) % 2 ^ k := by
    intro j hj
    rw [land_mask _ _ _ hm]
    conv_lhs => rw [Nat.add_mod]
    rw [Nat.mod_eq_of_lt (show j < 2 ^ k by omega)]
  by_cases hwrap : RB_REMAIN_IN rb < size
  · -- wrapping case: two copies
    have hres : KFIFO_Write_Buffer rb buffer size =
        (true,
         { rb with
           pool :=
             memcpy
               (memcpy rb.pool (rb.inC % 2 ^ k)
                 (buffer.take (2 ^ k - rb.inC % 2 ^ k)))
               0 ((buffer.drop (2 ^ k - rb.inC % 2 ^ k)).take
                   (size - (2 ^ k - rb.inC % 2 ^ k))),
           inC := (rb.inC + size) % U32 }) := by
      simp only [KFIFO_Write_Buffer, if_neg hnotlt, if_pos hwrap]
      rw [hoffeq, hrem]
    have hrem_lt : 2 ^ k - rb.inC % 2 ^ k < size := by omega
    have htl1 : (buffer.take (2 ^ k - rb.inC % 2 ^ k)).length
        = 2 ^ k - rb.inC % 2 ^ k := by
      rw [List.length_take]; omega
    have htl2 : ((buffer.drop (2 ^ k - rb.inC % 2 ^ k)).take
        (size - (2 ^ k - rb.inC % 2 ^ k))).length
        = size - (2 ^ k - rb.inC % 2 ^ k) := by
      rw [List.length_take, List.length_drop]; omega
    rw [hres]
    dsimp only
    refine ⟨rfl, rfl, rfl, rfl, ?_, ?_⟩
    · intro j hj
      rw [hidx j hj]
      by_cases hj1 : j < 2 ^ k - rb.inC % 2 ^ k
      · have heq : (rb.inC % 2 ^ k + j) % 2 ^ k = rb.inC % 2 ^ k + j :=
          Nat.mod_eq_of_lt (by omega)
        rw [heq,
          memcpy_out _ _ _ _ (by rw [htl2]; omega),
          memcpy_in _ _ _ _ (by rw [htl1]; omega),
          getD_take _ _ _ hj1]
      · have heq : (rb.inC % 2 ^ k + j) % 2 ^ k
            = j - (2 ^ k - rb.inC % 2 ^ k) := by
          rw [Nat.mod_eq_sub_mod (show 2 ^ k ≤ rb.inC % 2 ^ k + j by omega)]
          have h3 : rb.inC % 2 ^ k + j - 2 ^ k
              = j - (2 ^ k - rb.inC % 2 ^ k) := by omega
          rw [h3, Nat.mod_eq_of_lt (by omega)]
        rw [heq]
        have hlt2 : j - (2 ^ k - rb.inC % 2 ^ k)
            < ((buffer.drop (2 ^ k - rb.inC % 2 ^ k)).take
                (size - (2 ^ k - rb.inC % 2 ^ k))).length := by
          rw [htl2]; omega
        have hmc := memcpy_in _
          (memcpy rb.pool (rb.inC % 2 ^ k)
            (buffer.take (2 ^ k - rb.inC % 2 ^ k)))
          0 (j - (2 ^ k - rb.inC % 2 ^ k)) hlt2
        rw [Nat.zero_add] at hmc
        rw [hmc, getD_take _ _ _ (by omega), getD_drop]
        have h4 : 2 ^ k - rb.inC % 2 ^ k + (j - (2 ^ k - rb.inC % 2 ^ k))
            = j := by omega
        rw [h4]
    · intro i hi hmiss
      rw [hSeq] at hi
      have hnot2 : ¬ i < size - (2 ^ k - rb.inC % 2 ^ k) := by
        intro hcon
        have hj : i + (2 ^ k - rb.inC % 2 ^ k) < size := by omega
        have hne := hmiss (i + (2 ^ k - rb.inC % 2 ^ k)) hj
        rw [hidx _ hj] at hne
        have heq : (rb.inC % 2 ^ k + (i + (2 ^ k - rb.inC % 2 ^ k))) % 2 ^ k
            = i := by
          rw [Nat.mod_eq_sub_mod (by omega)]
          have h3 : rb.inC % 2 ^ k + (i + (2 ^ k - rb.inC % 2 ^ k)) - 2 ^ k
              = i := by omega
          rw [h3, Nat.mod_eq_of_lt hi]
        rw [heq] at hne
        exact hne rfl
      have hnot1 : ¬ rb.inC % 2 ^ k ≤ i := by
        intro hcon
        have hj : i - rb.inC % 2 ^ k < size := by omega
        have hne := hmiss (i - rb.inC % 2 ^ k) hj
        rw [hidx _ hj] at hne
        have heq : (rb.inC % 2 ^ k + (i - rb.inC % 2 ^ k)) % 2 ^ k = i := by
          have h3 : rb.inC % 2 ^ k + (i - rb.inC % 2 ^ k) = i := by omega
          rw [h3, Nat.mod_eq_of_lt hi]
        rw [heq] at hne
        exact hne rfl
      rw [memcpy_out _ _ _ _ (by rw [htl2]; omega),
        memcpy_out _ _ _ _ (by rw [htl1]; omega)]
  · -- non-wrapping case: a single copy
    have hres : KFIFO_Write_Buffer rb buffer size =
        (true,
         { rb with
           pool := memcpy rb.pool (rb.inC % 2 ^ k) (buffer.take size),
           inC := (rb.inC + size) % U32 }) := by
      simp only [KFIFO_Write_Buffer, if_neg hnotlt, if_neg hwrap]
      rw [hoffeq]
    have hfit : size ≤ 2 ^ k - rb.inC % 2 ^ k := by omega
    have htl : (buffer.take size).length = size := by
      rw [List.length_take]; omega
    rw [hres]
    dsimp only
    refine ⟨rfl, rfl, rfl, rfl, ?_, ?_⟩
    · intro j hj
      rw [hidx j hj,
        Nat.mod_eq_of_lt (show rb.inC % 2 ^ k + j < 2 ^ k by omega),
        memcpy_in _ _ _ _ (by rw [htl]; omega),
        getD_take _ _ _ hj]
    · intro i hi hmiss
      rw [hSeq] at hi
      have hnot1 : ¬ (rb.inC % 2 ^ k ≤ i ∧ i < rb.inC % 2 ^ k + size) := by
        intro hcon
        have hj : i - rb.inC % 2 ^ k < size := by omega
        have hne := hmiss (i - rb.inC % 2 ^ k) hj
        rw [hidx _ hj] at hne
        have heq : (rb.inC % 2 ^ k + (i - rb.inC % 2 ^ k)) % 2 ^ k = i := by
          have h3 : rb.inC % 2 ^ k + (i - rb.inC % 2 ^ k) = i := by omega
          rw [h3, Nat.mod_eq_of_lt hi]
        rw [heq] at hne
        exact hne rfl
      rw [memcpy_out _ _ _ _ (by rw [htl]; omega)]

/-- C4 witness: the theorem at `rbMid` (capacity 4, `in = 3`, `out = 1`,
free space 2) writing the two bytes `[10, 20]`, which wraps. -/
theorem write_buffer_stores_at_masked_offsets_witness :
    WF rbMid ∧ 2 ≤ [10, 20].length ∧ 2 ≤ RB_UNUSED rbMid ∧
    ((KFIFO_Write_Buffer rbMid [10, 20] 2).1 = true ∧
     (KFIFO_Write_Buffer rbMid [10, 20] 2).2.inC = (rbMid.inC + 2) % U32 ∧
     (KFIFO_Write_Buffer rbMid [10, 20] 2).2.out = rbMid.out ∧
     (KFIFO_Write_Buffer rbMid [10, 20] 2).2.mask = rbMid.mask ∧
     (∀ j, j < 2 →
       (KFIFO_Write_Buffer rbMid [10, 20] 2).2.pool
           ((rbMid.inC + j) &&& rbMid.mask)
         = [10, 20].getD j 0) ∧
     (∀ i, i < RB_SIZE rbMid →
       (∀ j, j < 2 → i ≠ (rbMid.inC + j) &&& rbMid.mask) →
       (KFIFO_Write_Buffer rbMid [10, 20] 2).2.pool i = rbMid.pool i)) := by
  have hwf : WF rbMid := ⟨by decide, by decide, 2, by decide, by decide⟩
  exact ⟨hwf, by decide, by decide,
    write_buffer_stores_at_masked_offsets rbMid [10, 20] 2 hwf
      (by decide) (by decide)⟩

theorem memcpy_nil (pool : Nat → Nat) (off : Nat) :
    memcpy pool off [] = pool := rfl

/-- C6: `KFIFO_Write_Buffer_Truncated` refines `KFIFO_Write_Buffer`. In
every well-formed state: when `size` exceeds the free space
`RB_UNUSED`, the truncated write returns exactly `RB_UNUSED rb` and its
state is the one `KFIFO_Write_Buffer` produces for a write of
`RB_UNUSED rb` bytes; when `size ≤ RB_UNUSED rb`, it returns `size` and
its effect on cursors and pool is identical to `KFIFO_Write_Buffer`,
which succeeds. (In a well-formed state `RB_UNUSED` is never `0`, so a
truncated write of a positive `size` never returns `0`.) -/
theorem write_truncated_refines_write_buffer (rb : KFIFO_Handle)
    (buffer : List Nat) (size : Nat) (hwf : WF rb) :
    (RB_UNUSED rb < size →
      KFIFO_Write_Buffer_Truncated rb buffer size
        = (RB_UNUSED rb, (KFIFO_Write_Buffer rb buffer (RB_UNUSED rb)).2)) ∧
    (size ≤ RB_UNUSED rb →
      KFIFO_Write_Buffer_Truncated rb buffer size
          = (size, (KFIFO_Write_Buffer rb buffer size).2) ∧
      (KFIFO_Write_Buffer rb buffer size).1 = true) := by
  obtain ⟨hin, hout, k, hk, hm⟩ := hwf
  have hused_le : RB_USED rb ≤ rb.mask := RB_USED_le_mask rb
  have hun : RB_UNUSED rb = 2 ^ k - RB_USED rb := RB_UNUSED_eq rb hk hm
  have hpos : 0 < RB_UNUSED rb := by omega
  constructor
  · intro h
    simp only [KFIFO_Write_Buffer_Truncated, KFIFO_Write_Buffer]
    rw [if_pos (show size > RB_UNUSED rb from h),
      if_neg (show ¬ RB_UNUSED rb = 0 by omega),
      if_neg (show ¬ RB_UNUSED rb < RB_UNUSED rb by omega)]
  · intro h
    by_cases hz : size = 0
    · subst hz
      constructor
      · simp only [KFIFO_Write_Buffer_Truncated, KFIFO_Write_Buffer]
        rw [if_neg (show ¬ (0 : Nat) > RB_UNUSED rb by omega), if_pos rfl,
          if_neg (show ¬ RB_UNUSED rb < 0 by omega),
          if_neg (show ¬ RB_REMAIN_IN rb < 0 by omega)]
        rw [List.take_zero, memcpy_nil, Nat.add_zero, Nat.mod_eq_of_lt hin]
      · simp only [KFIFO_Write_Buffer]
        rw [if_neg (show ¬ RB_UNUSED rb < 0 by omega)]
    · constructor
      · simp only [KFIFO_Write_Buffer_Truncated, KFIFO_Write_Buffer]
        rw [if_neg (show ¬ size > RB_UNUSED rb by omega), if_neg hz,
          if_neg (show ¬ RB_UNUSED rb < size by omega)]
      · simp only [KFIFO_Write_Buffer]
        rw [if_neg (show ¬ RB_UNUSED rb < size by omega)]

/-- C6 witness: on `rbMid` (free space 2) a truncated write of 5 bytes
equals a plain `KFIFO_Write_Buffer` of `RB_UNUSED rbMid = 2` bytes and
returns 2. -/
theorem write_truncated_refines_write_buffer_witness :
    WF rbMid ∧ RB_UNUSED rbMid < 5 ∧
    KFIFO_Write_Buffer_Truncated rbMid [1, 2, 3, 4, 9] 5
      = (RB_UNUSED rbMid,
         (KFIFO_Write_Buffer rbMid [1, 2, 3, 4, 9] (RB_UNUSED rbMid)).2) := by
  have hwf : WF rbMid := ⟨by decide, by decide, 2, by decide, by decide⟩
  exact ⟨hwf, by decide,
    (write_truncated_refines_write_buffer rbMid [1, 2, 3, 4, 9] 5 hwf).1
      (by decide)⟩

/-- C9: `KFIFO_Reset` sets both cursors to zero and changes nothing
else — the pool and the mask are those of the input — and the used count
`RB_USED` is 0 immediately afterwards, whatever the prior state. -/
theorem reset_zeroes_cursors_preserves_rest (rb : KFIFO_Handle) :
    KFIFO_Reset rb =
      { inC := 0, out := 0, mask := rb.mask, pool := rb.pool } ∧
    RB_USED (KFIFO_Reset rb) = 0 := by
  refine ⟨rfl, ?_⟩
  simp [RB_USED, KFIFO_Reset, U32]

end KFIFO
